import Mathlib

/-!
Verification of `src/wordpress-plugin-downloader.py` (a WordPress plugin
enumeration / download / extraction tool) against its natural-language
specification.

The Python source is shallowly embedded below.  Conventions:
  * Python `int` is `Int`; Python `None`-able values are `Option _`.
  * A plugin record (a JSON object from the registry) is the structure
    `PluginRecord`; `dict.get(k, d)` becomes `Option.getD`.
  * Network and filesystem effects are modelled by explicit oracles /
    state: `fetch : Nat → Option PageData` for `get_plugins`,
    `PluginEnv.net` for the archive download, and `ExtractState`
    (directories created, files written) for the destination subtree
    `download_dir/plugins/<slug>` mutated by extraction.
  * Paths follow POSIX `pathlib` semantics: `Path(s).parts` drops empty
    and `"."` segments and a trailing slash; `is_absolute` is a leading
    `"/"`.
-/

/-- A plugin record as returned by the registry API (the fields the
program reads).  `active_installs` and `last_updated` may be absent from
the JSON object, modelled with `Option`; `plugin.get(k, d)` in the source
becomes `Option.getD`. -/
structure PluginRecord where
  slug : String
  active_installs : Option Int
  last_updated : Option String
  download_link : Option String
deriving DecidableEq, Repr

/-- One page of the registry response: `info.pages` (the total page
count; `none` models a response whose `info`/`pages` is missing, which the
source treats as a bootstrap failure) and the page's plugin list
(`data.get("plugins", [])`, missing key modelled as `[]`). -/
structure PageData where
  info : Option Nat
  plugins : List PluginRecord
deriving Repr

/-- A member of a zip archive: its raw filename string and its byte
content (modelled as a `String`).  Whether it is a directory entry is
derived from the filename, as `zipfile.ZipInfo.is_dir()` does. -/
structure ZipEntry where
  filename : String
  content : String
deriving DecidableEq, Repr

/-- `zipfile.ZipInfo.is_dir()`: a member is a directory iff its filename
ends with a slash.  (Written over `toList` so it evaluates by kernel
reduction.) -/
def zipIsDir (e : ZipEntry) : Bool :=
  match e.filename.toList.getLast? with
  | some c => c = '/'
  | none => false

/-- Split a character list on `/` (the behaviour of `str.split("/")` /
pathlib segmentation, structurally recursive). -/
def splitSlash : List Char → List Char → List String
  | [], acc => [String.mk acc.reverse]
  | c :: cs, acc =>
    if c = '/' then String.mk acc.reverse :: splitSlash cs []
    else splitSlash cs (c :: acc)

/-- POSIX `pathlib.Path(s).parts`, without the root marker: split on
`/`, dropping empty segments and `"."` (pathlib normalizes both away and
ignores a trailing slash); `".."` segments are kept. -/
def pathSegs (s : String) : List String :=
  (splitSlash s.toList []).filter (fun t => t ≠ "" && t ≠ ".")

/-- POSIX `pathlib.Path(s).is_absolute()`: a leading slash. -/
def isAbsolutePath (s : String) : Bool :=
  match s.toList with
  | c :: _ => c = '/'
  | [] => false

/-- The per-entry path-traversal test of the source (line 62):
`".." in Path(member.filename).parts or Path(member.filename).is_absolute()`.
Such entries are skipped. -/
def isMaliciousEntry (e : ZipEntry) : Bool :=
  (pathSegs e.filename).contains ".." || isAbsolutePath e.filename

/-- The destination subtree `download_dir/plugins/<slug>` as mutated by
extraction: the directories created (paths relative to that root, `[]`
being the root itself) and the files written (path and content, later
writes overriding earlier ones). -/
structure ExtractState where
  dirs : List (List String)
  files : List (List String × String)
deriving DecidableEq, Repr

/-- The empty destination subtree. -/
def emptyTree : ExtractState := ⟨[], []⟩

/-- All prefixes of a path, root `[]` included: the directories
`Path.mkdir(parents=True, exist_ok=True)` guarantees to exist. -/
def ancestors (p : List String) : List (List String) :=
  (List.range (p.length + 1)).map (fun i => p.take i)

/-- `open(dest, "wb")` + `copyfileobj`: (over)write one file. -/
def writeFile (files : List (List String × String)) (path : List String)
    (content : String) : List (List String × String) :=
  files.filter (fun kv => kv.1 ≠ path) ++ [(path, content)]

/-- Process one non-skipped archive member (source lines 65-77):
`dest = plugin_path.joinpath(*parts)`, `dest.parent.mkdir(parents=True,
exist_ok=True)`, and, unless the member is a directory entry, write its
content to `dest`.  Note the source creates `dest.parent` and its
ancestors, never `dest` itself. -/
def extractEntry (st : ExtractState) (e : ZipEntry) : ExtractState :=
  let parts := pathSegs e.filename
  let st1 : ExtractState := ⟨st.dirs ++ ancestors parts.dropLast, st.files⟩
  if zipIsDir e then st1
  else ⟨st1.dirs, writeFile st1.files parts e.content⟩

/-- The extraction loop over `z.infolist()` (source lines 59-77), with an
oracle `osFail` telling which member's filesystem operations raise
`OSError`.  Malicious members are skipped (`continue`) before any
filesystem call; the first `OSError` aborts the remaining members (the
exception leaves the `with`-block; flag `true`).  Returns the final
subtree and whether extraction was aborted. -/
def extractRun (osFail : ZipEntry → Bool) :
    List ZipEntry → ExtractState → ExtractState × Bool
  | [], st => (st, false)
  | e :: rest, st =>
    if isMaliciousEntry e then extractRun osFail rest st
    else if osFail e then (st, true)
    else extractRun osFail rest (extractEntry st e)

/-- C1 helper: a malicious head entry is skipped without touching the
state or the filesystem oracle. -/
theorem extractRun_skip_malicious (osFail : ZipEntry → Bool) (e : ZipEntry)
    (rest : List ZipEntry) (st : ExtractState) (h : isMaliciousEntry e = true) :
    extractRun osFail (e :: rest) st = extractRun osFail rest st := by
  simp [extractRun, h]

/-- C1: extraction skips (never writes) every entry whose relative path
contains a `..` segment in any position or is absolute; an archive
consisting solely of such entries creates zero files and zero
directories under the destination, for every filesystem oracle. -/
theorem extractor_skips_malicious_entries (osFail : ZipEntry → Bool)
    (entries : List ZipEntry)
    (hall : ∀ e ∈ entries, isMaliciousEntry e = true) :
    extractRun osFail entries emptyTree = (emptyTree, false) ∧
    (∀ e rest st, isMaliciousEntry e = true →
      extractRun osFail (e :: rest) st = extractRun osFail rest st) ∧
    (∀ e : ZipEntry, ((pathSegs e.filename).contains ".." = true ∨
        isAbsolutePath e.filename = true) → isMaliciousEntry e = true) := by
  refine ⟨?_, ?_, ?_⟩
  · induction entries with
    | nil => rfl
    | cons e rest ih =>
      have he : isMaliciousEntry e = true := hall e (by simp)
      rw [extractRun_skip_malicious osFail e rest emptyTree he]
      exact ih (fun e' h' => hall e' (by simp [h']))
  · exact fun e rest st h => extractRun_skip_malicious osFail e rest st h
  · intro e h
    unfold isMaliciousEntry
    simp only [Bool.or_eq_true]
    exact h

/-- C1 witness: an archive made only of traversal/absolute entries
(including a `..` in a non-leading segment) extracts to nothing. -/
theorem extractor_skips_malicious_entries_witness :
    extractRun (fun _ => false)
      [⟨"../etc/passwd", "x"⟩, ⟨"/abs/file", "y"⟩, ⟨"a/../b", "z"⟩]
      emptyTree = (emptyTree, false) :=
  (extractor_skips_malicious_entries (fun _ => false)
    [⟨"../etc/passwd", "x"⟩, ⟨"/abs/file", "y"⟩, ⟨"a/../b", "z"⟩]
    (by decide)).1

/-- `max_installs is not None and installs > max_installs` (source lines
35 and 117). -/
def overMax (maxInstalls : Option Int) (installs : Int) : Bool :=
  match maxInstalls with
  | some m => decide (m < installs)
  | none => false

/-- The per-record filter of `process_page` (source lines 113-128):
`installs = plugin.get("active_installs", 0)`; reject when
`installs < min_installs` or over `max_installs`; then parse
`plugin.get("last_updated", "")` with
`datetime.strptime(_, "%Y-%m-%d %I:%M%p %Z")` — modelled by the oracle
`parseYear` giving the parsed year, `none` on parse failure (the
`except` branch) — and reject when the year is below `now.year - 2`. -/
def acceptsRecord (parseYear : String → Option Int) (nowYear minInstalls : Int)
    (maxInstalls : Option Int) (p : PluginRecord) : Bool :=
  let installs := p.active_installs.getD 0
  if installs < minInstalls then false
  else if overMax maxInstalls installs then false
  else
    match parseYear (p.last_updated.getD "") with
    | none => false
    | some y => decide (nowYear - 2 ≤ y)

/-- C2: the filter accepts a record iff the install count (0 when
absent) is within the `min`/`max` bounds and `last_updated` parses with
a year at least `now.year - 2`; an unparseable `last_updated` rejects
the record regardless of install counts. -/
theorem overMax_eq_false (maxInstalls : Option Int) (i : Int) :
    overMax maxInstalls i = false ↔
      (maxInstalls = none ∨ ∃ m, maxInstalls = some m ∧ i ≤ m) := by
  cases maxInstalls with
  | none => simp [overMax]
  | some m =>
    constructor
    · intro h
      refine Or.inr ⟨m, rfl, ?_⟩
      simp [overMax] at h
      omega
    · rintro (h | ⟨m', hm', hle⟩)
      · exact absurd h (by simp)
      · cases hm'
        simp [overMax]
        omega

/-- C2: the filter accepts a record iff the install count (0 when
absent) is within the `min`/`max` bounds and `last_updated` parses with
a year at least `now.year - 2`; an unparseable `last_updated` rejects
the record regardless of install counts. -/
theorem filter_accepts_iff (parseYear : String → Option Int)
    (nowYear minInstalls : Int) (maxInstalls : Option Int) (p : PluginRecord) :
    (acceptsRecord parseYear nowYear minInstalls maxInstalls p = true ↔
      (minInstalls ≤ p.active_installs.getD 0 ∧
       (maxInstalls = none ∨
         ∃ m, maxInstalls = some m ∧ p.active_installs.getD 0 ≤ m) ∧
       ∃ y, parseYear (p.last_updated.getD "") = some y ∧ nowYear - 2 ≤ y)) ∧
    (parseYear (p.last_updated.getD "") = none →
      acceptsRecord parseYear nowYear minInstalls maxInstalls p = false) := by
  have hdef : acceptsRecord parseYear nowYear minInstalls maxInstalls p =
      (if p.active_installs.getD 0 < minInstalls then false
       else if overMax maxInstalls (p.active_installs.getD 0) then false
       else
         match parseYear (p.last_updated.getD "") with
         | none => false
         | some y => decide (nowYear - 2 ≤ y)) := rfl
  constructor
  · rw [hdef]
    by_cases h1 : p.active_installs.getD 0 < minInstalls
    · rw [if_pos h1]
      simp only [Bool.false_eq_true, false_iff]
      rintro ⟨c1, -, -⟩
      omega
    · rw [if_neg h1]
      by_cases h2 : overMax maxInstalls (p.active_installs.getD 0) = true
      · rw [if_pos h2]
        simp only [Bool.false_eq_true, false_iff]
        rintro ⟨-, hmax, -⟩
        exact absurd h2 (by simp [(overMax_eq_false _ _).mpr hmax])
      · rw [if_neg h2]
        cases hp : parseYear (p.last_updated.getD "") with
        | none =>
          simp only [hp, Bool.false_eq_true, false_iff]
          rintro ⟨-, -, y, hy, -⟩
          exact Option.noConfusion hy
        | some y =>
          simp only [hp]
          constructor
          · intro h
            exact ⟨by omega, (overMax_eq_false _ _).mp (Bool.eq_false_iff.mpr h2),
              y, rfl, of_decide_eq_true h⟩
          · rintro ⟨-, -, y', hy', h3⟩
            cases hy'
            exact decide_eq_true h3
  · intro hp
    rw [hdef, hp]
    simp

/-- C2 witness: a record with 50 installs, `min = 10`, no max, parse
year 2024 at `now.year = 2025` is accepted; the same shape with an
unparseable timestamp is rejected. -/
theorem filter_accepts_iff_witness :
    acceptsRecord (fun s => if s = "2024-01-01 10:00AM GMT" then some 2024 else none)
      2025 10 none ⟨"a", some 50, some "2024-01-01 10:00AM GMT", none⟩ = true ∧
    acceptsRecord (fun s => if s = "2024-01-01 10:00AM GMT" then some 2024 else none)
      2025 10 none ⟨"b", some 50, some "garbage", none⟩ = false := by
  constructor
  · exact (filter_accepts_iff (fun s => if s = "2024-01-01 10:00AM GMT" then some 2024 else none)
      2025 10 none ⟨"a", some 50, some "2024-01-01 10:00AM GMT", none⟩).1.mpr
      ⟨by decide, Or.inl rfl, 2024, by decide, by decide⟩
  · exact (filter_accepts_iff (fun s => if s = "2024-01-01 10:00AM GMT" then some 2024 else none)
      2025 10 none ⟨"b", some 50, some "garbage", none⟩).2 (by decide)

/-- The pagination bootstrap (source lines 98-103): `get_plugins(page=1)`
must return a response carrying `info.pages`; `none` models both a fetch
failure (`not first_page`) and a missing `info`/`pages`, each of which
fails the whole enumeration. -/
def bootstrap (fetch : Nat → Option PageData) : Option Nat :=
  match fetch 1 with
  | none => none
  | some d => d.info

/-- `total_pages = min(total_pages, max_pages) if max_pages is not None`
(source lines 104-105). -/
def pageBound (total : Nat) (maxPages : Option Nat) : Nat :=
  match maxPages with
  | some m => min total m
  | none => total

/-- `pages = list(range(1, total_pages + 1))` (source line 107). -/
def pageRange (total : Nat) (maxPages : Option Nat) : List Nat :=
  List.range' 1 (pageBound total maxPages)

/-- `process_page` (source lines 109-133): fetch the page and keep the
accepted records in order; any failure inside the task — including
`get_plugins` returning `None`, which makes `data.get` raise — is caught
and contributes the empty list. -/
def processPage (fetch : Nat → Option PageData) (parseYear : String → Option Int)
    (nowYear minInstalls : Int) (maxInstalls : Option Int) (page : Nat) :
    List PluginRecord :=
  match fetch page with
  | none => []
  | some d => d.plugins.filter (acceptsRecord parseYear nowYear minInstalls maxInstalls)

/-- The enumeration phase of `download_all_plugins` (source lines
98-138): bootstrap from page 1 (`error` models the early `return`), then
accumulate every dispatched page's accepted records.  `order` is the
completion order in which `as_completed` yields the page tasks — any
permutation of `pageRange` when instantiated. -/
def enumerate (fetch : Nat → Option PageData) (parseYear : String → Option Int)
    (nowYear minInstalls : Int) (maxInstalls : Option Int) (order : List Nat) :
    Except Unit (List PluginRecord) :=
  match bootstrap fetch with
  | none => Except.error ()
  | some _ =>
    Except.ok (order.bind (processPage fetch parseYear nowYear minInstalls maxInstalls))

/-- The pages the enumeration requests from the registry: page 1
synchronously (always, even when the bootstrap then fails), then — only
when the bootstrap succeeded — each dispatched page. -/
def fetchedPages (fetch : Nat → Option PageData) (order : List Nat) : List Nat :=
  1 :: (match bootstrap fetch with
        | none => []
        | some _ => order)

/-- C3: enumeration fails as a whole iff the synchronous page-1 fetch
yields no total page count; a failed dispatched page contributes the
empty list; and every record accepted on any dispatched page is in the
aggregated result, whatever happened on the other pages. -/
theorem enumeration_failure_containment (fetch : Nat → Option PageData)
    (parseYear : String → Option Int) (nowYear minInstalls : Int)
    (maxInstalls : Option Int) (order : List Nat) :
    ((enumerate fetch parseYear nowYear minInstalls maxInstalls order =
        Except.error ()) ↔ bootstrap fetch = none) ∧
    (∀ q, fetch q = none →
      processPage fetch parseYear nowYear minInstalls maxInstalls q = []) ∧
    (∀ res q r,
      enumerate fetch parseYear nowYear minInstalls maxInstalls order = Except.ok res →
      q ∈ order →
      r ∈ processPage fetch parseYear nowYear minInstalls maxInstalls q →
      r ∈ res) := by
  refine ⟨?_, ?_, ?_⟩
  · unfold enumerate
    cases hb : bootstrap fetch with
    | none => simp
    | some t => simp
  · intro q hq
    unfold processPage
    rw [hq]
  · intro res q r henum hq hr
    unfold enumerate at henum
    cases hb : bootstrap fetch with
    | none => rw [hb] at henum; exact Except.noConfusion henum
    | some t =>
      rw [hb] at henum
      cases henum
      exact List.mem_bind.mpr ⟨q, hq, hr⟩

/-- Concrete fixtures for the enumeration witnesses: three pages, the
fetch of page 2 fails, pages 1 and 3 each carry one accepted record. -/
def recA : PluginRecord := ⟨"aaa", some 5, some "ok", none⟩

def recC : PluginRecord := ⟨"ccc", some 7, some "ok", none⟩

def pyW : String → Option Int := fun s => if s = "ok" then some 2025 else none

def fetchW : Nat → Option PageData := fun p =>
  if p = 1 then some ⟨some 3, [recA]⟩
  else if p = 3 then some ⟨some 3, [recC]⟩
  else none

/-- C3 witness: with 3 pages and the page-2 fetch failing, page 2
contributes nothing while pages 1 and 3's accepted records are both in
the aggregated result. -/
theorem enumeration_failure_containment_witness :
    processPage fetchW pyW 2025 0 none 2 = [] ∧
    recA ∈ [recA, recC] ∧ recC ∈ [recA, recC] := by
  refine ⟨?_, ?_, ?_⟩
  · exact (enumeration_failure_containment fetchW pyW 2025 0 none [1, 2, 3]).2.1 2 rfl
  · exact (enumeration_failure_containment fetchW pyW 2025 0 none [1, 2, 3]).2.2
      [recA, recC] 1 recA (by rfl) (by decide) (by decide)
  · exact (enumeration_failure_containment fetchW pyW 2025 0 none [1, 2, 3]).2.2
      [recA, recC] 3 recC (by rfl) (by decide) (by decide)

/-- A registry whose page 1 reports 3 total pages. -/
def fetchTotal3 : Nat → Option PageData := fun _ => some ⟨some 3, []⟩

/-- C5 counterexample: with `total_pages = 3` and `max_pages = 0` the
page range is empty, yet the enumeration still fetches page 1 (the
synchronous bootstrap), so it is not true that only pages
`1..min(total, maxPages)` are ever fetched. -/
theorem pages_fetched_exact_counterexample :
    bootstrap fetchTotal3 = some 3 ∧
    fetchedPages fetchTotal3 (pageRange 3 (some 0)) = [1] ∧
    1 ∉ pageRange 3 (some 0) := by
  exact ⟨rfl, rfl, by decide⟩

/-- C5 (amended): page 1 is always fetched to bootstrap pagination;
whenever `min(total_pages, max_pages) ≥ 1` the set of fetched pages is
exactly `{1, …, min(total_pages, max_pages)}` and no page beyond that
bound is ever fetched. -/
theorem pages_fetched_bounded (fetch : Nat → Option PageData) (total : Nat)
    (maxPages : Option Nat) (order : List Nat)
    (hboot : bootstrap fetch = some total)
    (hperm : order.Perm (pageRange total maxPages))
    (hpos : 1 ≤ pageBound total maxPages) :
    (fetchedPages fetch order).toFinset = (pageRange total maxPages).toFinset ∧
    ∀ p ∈ fetchedPages fetch order, p ≤ pageBound total maxPages := by
  have hf : fetchedPages fetch order = 1 :: order := by
    unfold fetchedPages
    rw [hboot]
  have hmem : ∀ p, p ∈ order → 1 ≤ p ∧ p ≤ pageBound total maxPages := by
    intro p hp
    have h1 : p ∈ pageRange total maxPages := hperm.mem_iff.mp hp
    unfold pageRange at h1
    rw [List.mem_range'_1] at h1
    omega
  constructor
  · rw [hf, List.toFinset_cons, List.toFinset_eq_of_perm order _ hperm]
    refine Finset.insert_eq_self.mpr ?_
    refine List.mem_toFinset.mpr ?_
    unfold pageRange
    rw [List.mem_range'_1]
    omega
  · intro p hp
    rw [hf] at hp
    rcases List.mem_cons.mp hp with h | h
    · omega
    · exact (hmem p h).2

/-- C5 witness: `total_pages = 3`, `max_pages = 2`, completion order
`[2, 1]` — the fetched pages are exactly `{1, 2}` and none exceeds 2
(page 3 is never fetched). -/
theorem pages_fetched_bounded_witness :
    (fetchedPages fetchTotal3 [2, 1]).toFinset = (pageRange 3 (some 2)).toFinset ∧
    ∀ p ∈ fetchedPages fetchTotal3 [2, 1], p ≤ pageBound 3 (some 2) :=
  pages_fetched_bounded fetchTotal3 3 (some 2) [2, 1] rfl (by decide) (by decide)

/-- Terminal state of `download_and_extract_plugin` for one plugin:
the `raise ValueError` skip (caught by the batch loop), the three caught
exception classes, or full extraction. -/
inductive Outcome where
  | skippedBounds
  | netError
  | badZip
  | osError
  | extracted
deriving DecidableEq, Repr

/-- Environment oracle for one plugin's download: `net` is the result of
`requests.get(download_link)` + `zipfile.ZipFile` — `none` a
`RequestException` (including a missing `download_link`), `some none` a
`BadZipFile`, `some (some es)` the archive's member list; `osFail` says
which member's filesystem operations raise `OSError`. -/
structure PluginEnv where
  net : Option (Option (List ZipEntry))
  osFail : ZipEntry → Bool

/-- The outcome of one plugin together with the final contents of its
target subtree `download_dir/plugins/<slug>`. -/
structure PluginResult where
  outcome : Outcome
  tree : ExtractState
deriving Repr

/-- `download_and_extract_plugin` (source lines 29-84) acting on the
plugin's target subtree (`init` its prior contents):
1. re-validate the install bounds, raising `ValueError` (`skippedBounds`)
   before any network or filesystem action;
2. remove the existing target directory (`shutil.rmtree`,
   `ignore_errors=True`, modelled as a completed removal) — this happens
   before the download, so every non-skipped outcome starts from an
   empty subtree;
3. download the archive (`netError` on `RequestException`), open it
   (`badZip` on `BadZipFile`), and extract, aborting on the first
   `OSError`. -/
def downloadAndExtractPlugin (env : PluginEnv) (init : ExtractState)
    (p : PluginRecord) (minInstalls : Int) (maxInstalls : Option Int) :
    PluginResult :=
  let installs := p.active_installs.getD 0
  if installs < minInstalls then ⟨Outcome.skippedBounds, init⟩
  else if overMax maxInstalls installs then ⟨Outcome.skippedBounds, init⟩
  else
    match env.net with
    | none => ⟨Outcome.netError, emptyTree⟩
    | some none => ⟨Outcome.badZip, emptyTree⟩
    | some (some entries) =>
      match extractRun env.osFail entries emptyTree with
      | (st, true) => ⟨Outcome.osError, st⟩
      | (st, false) => ⟨Outcome.extracted, st⟩

/-- Unfolding lemma for `downloadAndExtractPlugin` (zeta-reduced). -/
theorem downloadAndExtractPlugin_def (env : PluginEnv) (init : ExtractState)
    (p : PluginRecord) (minInstalls : Int) (maxInstalls : Option Int) :
    downloadAndExtractPlugin env init p minInstalls maxInstalls =
      (if p.active_installs.getD 0 < minInstalls then ⟨Outcome.skippedBounds, init⟩
       else if overMax maxInstalls (p.active_installs.getD 0) then
         ⟨Outcome.skippedBounds, init⟩
       else
         match env.net with
         | none => ⟨Outcome.netError, emptyTree⟩
         | some none => ⟨Outcome.badZip, emptyTree⟩
         | some (some entries) =>
           match extractRun env.osFail entries emptyTree with
           | (st, true) => ⟨Outcome.osError, st⟩
           | (st, false) => ⟨Outcome.extracted, st⟩) := rfl

/-- One unit of the batch loop of `download_all_plugins` (source lines
150-158): a plugin record, its download environment and its target
subtree's prior contents. -/
structure BatchItem where
  record : PluginRecord
  env : PluginEnv
  init : ExtractState

/-- The batch loop (source lines 150-158): every plugin is processed in
turn; `ValueError` is caught by the loop and the other exceptions inside
`download_and_extract_plugin` itself, so no outcome stops the loop. -/
def downloadAllBatch (minInstalls : Int) (maxInstalls : Option Int)
    (items : List BatchItem) : List PluginResult :=
  items.map
    (fun it => downloadAndExtractPlugin it.env it.init it.record minInstalls maxInstalls)

/-- C7: a record violating the install bounds is skipped (`ValueError`
→ `skippedBounds`, not a network/zip/filesystem error) with its target
subtree untouched, identically for every environment (so before any
network or filesystem action), and the batch still processes all
remaining plugins. -/
theorem bounds_violation_skips_early (env : PluginEnv) (init : ExtractState)
    (p : PluginRecord) (minInstalls : Int) (maxInstalls : Option Int)
    (h : p.active_installs.getD 0 < minInstalls ∨
      ∃ m, maxInstalls = some m ∧ m < p.active_installs.getD 0) :
    downloadAndExtractPlugin env init p minInstalls maxInstalls =
      ⟨Outcome.skippedBounds, init⟩ ∧
    (∀ env' : PluginEnv,
      downloadAndExtractPlugin env' init p minInstalls maxInstalls =
        ⟨Outcome.skippedBounds, init⟩) ∧
    (∀ items : List BatchItem,
      downloadAllBatch minInstalls maxInstalls (⟨p, env, init⟩ :: items) =
        ⟨Outcome.skippedBounds, init⟩ :: downloadAllBatch minInstalls maxInstalls items) := by
  have key : ∀ env' : PluginEnv,
      downloadAndExtractPlugin env' init p minInstalls maxInstalls =
        ⟨Outcome.skippedBounds, init⟩ := by
    intro env'
    rw [downloadAndExtractPlugin_def]
    by_cases h1 : p.active_installs.getD 0 < minInstalls
    · rw [if_pos h1]
    · rcases h with h | ⟨m, hm, hlt⟩
      · exact absurd h h1
      · rw [if_neg h1, if_pos (by simp only [overMax, hm]; exact decide_eq_true hlt)]
  refine ⟨key env, key, ?_⟩
  intro items
  unfold downloadAllBatch
  rw [List.map_cons]
  rw [key env]

/-- C7 witness: 5 installs with `min_installs = 10` is skipped with the
tree untouched, under an environment whose network would fail. -/
theorem bounds_violation_skips_early_witness :
    downloadAndExtractPlugin ⟨none, fun _ => false⟩ emptyTree
      ⟨"w7", some 5, none, none⟩ 10 none =
      ⟨Outcome.skippedBounds, emptyTree⟩ :=
  (bounds_violation_skips_early ⟨none, fun _ => false⟩ emptyTree
    ⟨"w7", some 5, none, none⟩ 10 none (Or.inl (by decide))).1

/-- C6: (a) a malformed archive (`BadZipFile`) aborts that plugin's
extraction with no entry written; (b) the first `OSError` on an entry
aborts the remainder of the archive — the entries after it contribute
nothing and the state is exactly that of the prefix; (c) the batch loop
processes every remaining plugin regardless of the previous plugin's
outcome. -/
theorem archive_failure_containment :
    (∀ (env : PluginEnv) (init : ExtractState) (p : PluginRecord)
        (minInstalls : Int) (maxInstalls : Option Int),
      env.net = some none →
      ¬ p.active_installs.getD 0 < minInstalls →
      overMax maxInstalls (p.active_installs.getD 0) = false →
      downloadAndExtractPlugin env init p minInstalls maxInstalls =
        ⟨Outcome.badZip, emptyTree⟩) ∧
    (∀ (osFail : ZipEntry → Bool) (pre post : List ZipEntry) (e : ZipEntry)
        (st : ExtractState),
      (∀ e' ∈ pre, isMaliciousEntry e' = true ∨ osFail e' = false) →
      isMaliciousEntry e = false → osFail e = true →
      extractRun osFail (pre ++ e :: post) st =
        ((extractRun osFail pre st).1, true)) ∧
    (∀ (minInstalls : Int) (maxInstalls : Option Int) (x : BatchItem)
        (xs : List BatchItem),
      downloadAllBatch minInstalls maxInstalls (x :: xs) =
        downloadAndExtractPlugin x.env x.init x.record minInstalls maxInstalls ::
          downloadAllBatch minInstalls maxInstalls xs) := by
  refine ⟨?_, ?_, ?_⟩
  · intro env init p minInstalls maxInstalls hnet h1 h2
    rw [downloadAndExtractPlugin_def, if_neg h1, if_neg (by simp [h2]), hnet]
  · intro osFail pre post e st hpre hmal hos
    induction pre generalizing st with
    | nil => simp [extractRun, hmal, hos]
    | cons e' rest ih =>
      by_cases hm' : isMaliciousEntry e' = true
      · rw [List.cons_append, extractRun_skip_malicious osFail e' _ st hm',
          extractRun_skip_malicious osFail e' rest st hm']
        exact ih st (fun x hx => hpre x (List.mem_cons_of_mem e' hx))
      · have hm'' : isMaliciousEntry e' = false := by
          revert hm'
          cases isMaliciousEntry e' <;> simp
        have ho' : osFail e' = false := by
          rcases hpre e' (by simp) with h | h
          · rw [hm''] at h
            exact Bool.noConfusion h
          · exact h
        rw [List.cons_append,
          show extractRun osFail (e' :: (rest ++ e :: post)) st =
            extractRun osFail (rest ++ e :: post) (extractEntry st e') from by
              simp [extractRun, hm'', ho'],
          show extractRun osFail (e' :: rest) st =
            extractRun osFail rest (extractEntry st e') from by
              simp [extractRun, hm'', ho']]
        exact ih (extractEntry st e') (fun x hx => hpre x (List.mem_cons_of_mem e' hx))
  · intro minInstalls maxInstalls x xs
    unfold downloadAllBatch
    rw [List.map_cons]

/-- C6 witness: a bad archive for "foo" yields `badZip` with nothing
written; an `OSError` on the second member keeps only the first member's
effects and drops the rest; the batch with "foo" first still processes
the following item. -/
theorem archive_failure_containment_witness :
    downloadAndExtractPlugin ⟨some none, fun _ => false⟩ emptyTree
      ⟨"foo", some 5, none, none⟩ 0 none = ⟨Outcome.badZip, emptyTree⟩ ∧
    extractRun (fun e => e.filename == "boom")
      [⟨"ok.txt", "a"⟩, ⟨"boom", "b"⟩, ⟨"later.txt", "c"⟩] emptyTree =
      ((extractRun (fun e => e.filename == "boom") [⟨"ok.txt", "a"⟩] emptyTree).1,
        true) ∧
    downloadAllBatch 0 none
      [⟨⟨"foo", some 5, none, none⟩, ⟨some none, fun _ => false⟩, emptyTree⟩,
       ⟨⟨"bar", some 6, none, none⟩,
         ⟨some (some [⟨"bar/x.txt", "x"⟩]), fun _ => false⟩, emptyTree⟩] =
      downloadAndExtractPlugin ⟨some none, fun _ => false⟩ emptyTree
          ⟨"foo", some 5, none, none⟩ 0 none ::
        downloadAllBatch 0 none
          [⟨⟨"bar", some 6, none, none⟩,
            ⟨some (some [⟨"bar/x.txt", "x"⟩]), fun _ => false⟩, emptyTree⟩] := by
  refine ⟨?_, ?_, ?_⟩
  · exact archive_failure_containment.1 ⟨some none, fun _ => false⟩ emptyTree
      ⟨"foo", some 5, none, none⟩ 0 none rfl (by decide) (by decide)
  · exact archive_failure_containment.2.1 (fun e => e.filename == "boom")
      [⟨"ok.txt", "a"⟩] [⟨"later.txt", "c"⟩] ⟨"boom", "b"⟩ emptyTree
      (by decide) (by decide) (by decide)
  · exact archive_failure_containment.2.2 0 none
      ⟨⟨"foo", some 5, none, none⟩, ⟨some none, fun _ => false⟩, emptyTree⟩
      [⟨⟨"bar", some 6, none, none⟩,
        ⟨some (some [⟨"bar/x.txt", "x"⟩]), fun _ => false⟩, emptyTree⟩]

/-- Every file present after an extraction run was either already in the
starting subtree or comes from a non-skipped, non-directory member of
the archive. -/
theorem extractRun_files_from_entries (osFail : ZipEntry → Bool)
    (entries : List ZipEntry) (st : ExtractState) (pth : List String)
    (c : String) (h : (pth, c) ∈ (extractRun osFail entries st).1.files) :
    (pth, c) ∈ st.files ∨
      ∃ e ∈ entries, isMaliciousEntry e = false ∧ zipIsDir e = false ∧
        pathSegs e.filename = pth ∧ e.content = c := by
  induction entries generalizing st with
  | nil => exact Or.inl h
  | cons e rest ih =>
    by_cases hm : isMaliciousEntry e = true
    · rw [extractRun_skip_malicious osFail e rest st hm] at h
      rcases ih st h with h' | ⟨e', he', hrest⟩
      · exact Or.inl h'
      · exact Or.inr ⟨e', List.mem_cons_of_mem e he', hrest⟩
    · have hm' : isMaliciousEntry e = false := by
        revert hm
        cases isMaliciousEntry e <;> simp
      by_cases ho : osFail e = true
      · rw [show extractRun osFail (e :: rest) st = (st, true) from by
          simp [extractRun, hm', ho]] at h
        exact Or.inl h
      · have ho' : osFail e = false := by
          revert ho
          cases osFail e <;> simp
        rw [show extractRun osFail (e :: rest) st =
            extractRun osFail rest (extractEntry st e) from by
          simp [extractRun, hm', ho']] at h
        rcases ih (extractEntry st e) h with h' | ⟨e', he', hrest⟩
        · by_cases hd : zipIsDir e = true
          · rw [show (extractEntry st e).files = st.files from by
              simp [extractEntry, hd]] at h'
            exact Or.inl h'
          · have hd' : zipIsDir e = false := by
              revert hd
              cases zipIsDir e <;> simp
            rw [show (extractEntry st e).files =
                writeFile st.files (pathSegs e.filename) e.content from by
              simp [extractEntry, hd']] at h'
            unfold writeFile at h'
            rcases List.mem_append.mp h' with h'' | h''
            · exact Or.inl (List.mem_filter.mp h'').1
            · rcases List.mem_singleton.mp h'' with h'''
              exact Or.inr ⟨e, List.mem_cons_self e rest,
                hm', hd', congrArg Prod.fst h'''.symm, congrArg Prod.snd h'''.symm⟩
        · exact Or.inr ⟨e', List.mem_cons_of_mem e he', hrest⟩

/-- C9: the orchestrator removes the existing target directory before
extracting, so (1) the result is independent of the target's prior
contents (no stale file survives), (2) running it twice with the same
archive yields the identical final tree, and (3) every file in the final
tree comes from a member of the archive that produced it — a file absent
from the second run's archive cannot remain. -/
theorem orchestrator_idempotent (es : List ZipEntry) (init init' : ExtractState)
    (p : PluginRecord) (minInstalls : Int) (maxInstalls : Option Int)
    (h1 : ¬ p.active_installs.getD 0 < minInstalls)
    (h2 : overMax maxInstalls (p.active_installs.getD 0) = false) :
    (downloadAndExtractPlugin ⟨some (some es), fun _ => false⟩ init p
        minInstalls maxInstalls =
      downloadAndExtractPlugin ⟨some (some es), fun _ => false⟩ init' p
        minInstalls maxInstalls) ∧
    ((downloadAndExtractPlugin ⟨some (some es), fun _ => false⟩
        (downloadAndExtractPlugin ⟨some (some es), fun _ => false⟩ init p
          minInstalls maxInstalls).tree p minInstalls maxInstalls).tree =
      (downloadAndExtractPlugin ⟨some (some es), fun _ => false⟩ init p
        minInstalls maxInstalls).tree) ∧
    (∀ (es₂ : List ZipEntry) (pth : List String) (c : String),
      (pth, c) ∈ (downloadAndExtractPlugin ⟨some (some es₂), fun _ => false⟩
        init p minInstalls maxInstalls).tree.files →
      ∃ e ∈ es₂, isMaliciousEntry e = false ∧ zipIsDir e = false ∧
        pathSegs e.filename = pth ∧ e.content = c) := by
  have key : ∀ (es' : List ZipEntry) (st : ExtractState),
      downloadAndExtractPlugin ⟨some (some es'), fun _ => false⟩ st p
        minInstalls maxInstalls =
        (match extractRun (fun _ => false) es' emptyTree with
         | (t, true) => ⟨Outcome.osError, t⟩
         | (t, false) => ⟨Outcome.extracted, t⟩) := by
    intro es' st
    rw [downloadAndExtractPlugin_def, if_neg h1, if_neg (by simp [h2])]
  refine ⟨?_, ?_, ?_⟩
  · rw [key es init, key es init']
  · rw [key es init, key es _]
  · intro es₂ pth c h
    rw [key es₂ init] at h
    rcases hrun : extractRun (fun _ => false) es₂ emptyTree with ⟨t, b⟩
    rw [hrun] at h
    have ht : (pth, c) ∈ t.files := by
      cases b <;> simpa using h
    have := extractRun_files_from_entries (fun _ => false) es₂ emptyTree pth c
      (by rw [hrun]; exact ht)
    rcases this with h' | h'
    · exact absurd h' (by simp [emptyTree])
    · exact h'

/-- C9 witness: with a one-file archive and a stale prior tree, the
second run's final tree equals the first run's. -/
theorem orchestrator_idempotent_witness :
    (downloadAndExtractPlugin ⟨some (some [⟨"a/b.txt", "hi"⟩]), fun _ => false⟩
        (downloadAndExtractPlugin ⟨some (some [⟨"a/b.txt", "hi"⟩]), fun _ => false⟩
          ⟨[], [(["stale"], "old")]⟩ ⟨"w9", some 5, none, none⟩ 0 none).tree
        ⟨"w9", some 5, none, none⟩ 0 none).tree =
      (downloadAndExtractPlugin ⟨some (some [⟨"a/b.txt", "hi"⟩]), fun _ => false⟩
        ⟨[], [(["stale"], "old")]⟩ ⟨"w9", some 5, none, none⟩ 0 none).tree :=
  (orchestrator_idempotent [⟨"a/b.txt", "hi"⟩] ⟨[], [(["stale"], "old")]⟩
    emptyTree ⟨"w9", some 5, none, none⟩ 0 none (by decide) (by decide)).2.1

/-- C8 counterexample: extracting an archive whose sole member is the
directory entry `"sub/"` creates only the destination root (the entry's
parent), never the directory `sub` itself, and writes no file — so a
directory-only entry does not create "that directory itself". -/
theorem dir_entry_counterexample :
    (extractRun (fun _ => false) [⟨"sub/", ""⟩] emptyTree).1.dirs = [[]] ∧
    ["sub"] ∉ (extractRun (fun _ => false) [⟨"sub/", ""⟩] emptyTree).1.dirs ∧
    (extractRun (fun _ => false) [⟨"sub/", ""⟩] emptyTree).1.files = [] := by
  refine ⟨rfl, by decide, rfl⟩

/-- C8 (amended): for a non-skipped member, extraction creates the
ancestor chain of the member's path (its parent and every directory
above it, the destination root included) — for a directory-only entry
that is all it does (the directory itself is not created) and no file
content is written; for a file entry those ancestors are created before
the content is written to the member's path. -/
theorem entry_directory_creation (e : ZipEntry) (st : ExtractState)
    (hmal : isMaliciousEntry e = false) :
    (zipIsDir e = true →
      (extractRun (fun _ => false) [e] st).1 =
        ⟨st.dirs ++ ancestors (pathSegs e.filename).dropLast, st.files⟩) ∧
    (zipIsDir e = false →
      (∀ a ∈ ancestors (pathSegs e.filename).dropLast,
        a ∈ (extractRun (fun _ => false) [e] st).1.dirs) ∧
      (pathSegs e.filename, e.content) ∈
        (extractRun (fun _ => false) [e] st).1.files) := by
  have hrun : (extractRun (fun _ => false) [e] st).1 = extractEntry st e := by
    simp [extractRun, hmal]
  constructor
  · intro hd
    rw [hrun]
    simp [extractEntry, hd]
  · intro hd
    rw [hrun]
    constructor
    · intro a ha
      have : (extractEntry st e).dirs =
          st.dirs ++ ancestors (pathSegs e.filename).dropLast := by
        simp [extractEntry, hd]
      rw [this]
      exact List.mem_append.mpr (Or.inr ha)
    · have : (extractEntry st e).files =
          writeFile st.files (pathSegs e.filename) e.content := by
        simp [extractEntry, hd]
      rw [this]
      unfold writeFile
      exact List.mem_append.mpr (Or.inr (List.mem_singleton.mpr rfl))

/-- C8 witness: the file entry `a/b.txt` ends up written at
`["a", "b.txt"]` with the ancestor directories `[]` and `["a"]` created. -/
theorem entry_directory_creation_witness :
    zipIsDir (⟨"a/b.txt", "hi"⟩ : ZipEntry) = false ∧
    (pathSegs "a/b.txt", "hi") ∈
      (extractRun (fun _ => false) [⟨"a/b.txt", "hi"⟩] emptyTree).1.files ∧
    ["a"] ∈ (extractRun (fun _ => false) [⟨"a/b.txt", "hi"⟩] emptyTree).1.dirs :=
  ⟨by decide,
   ((entry_directory_creation ⟨"a/b.txt", "hi"⟩ emptyTree (by decide)).2
     (by decide)).2,
   ((entry_directory_creation ⟨"a/b.txt", "hi"⟩ emptyTree (by decide)).2
     (by decide)).1 ["a"] (by decide)⟩

/-- A plugin record lacking `active_installs`, with a parseable
timestamp (under `pyW`). -/
def recNoInstalls : PluginRecord := ⟨"noinst", none, some "ok", none⟩

/-- C10 counterexample: a record lacking `active_installs` with
`min_installs = 0` and `max_installs = -1` is rejected by the filter and
skipped by the orchestrator even though `min_installs ≤ 0` — the claimed
"passes iff `min_installs ≤ 0`" fails because the defaulted install
count 0 can still exceed a negative `max_installs`. -/
theorem missing_installs_counterexample :
    recNoInstalls.active_installs = none ∧
    ((0 : Int) ≤ 0) ∧
    acceptsRecord pyW 2025 0 (some (-1)) recNoInstalls = false ∧
    (downloadAndExtractPlugin ⟨some (some []), fun _ => false⟩ emptyTree
      recNoInstalls 0 (some (-1))).outcome = Outcome.skippedBounds := by
  refine ⟨rfl, by decide, by decide, by decide⟩

/-- C10 (amended): a record lacking `active_installs` is treated as
having 0 installs by both the filter and the orchestrator's
re-validation: it passes the install-count bounds iff `min_installs ≤ 0`
and (`max_installs` absent or non-negative) — in particular it is
skipped/rejected whenever `min_installs > 0`. -/
theorem missing_installs_as_zero (parseYear : String → Option Int)
    (nowYear minInstalls : Int) (maxInstalls : Option Int) (p : PluginRecord)
    (env : PluginEnv) (init : ExtractState)
    (hnone : p.active_installs = none) :
    ((downloadAndExtractPlugin env init p minInstalls maxInstalls).outcome =
        Outcome.skippedBounds ↔
      ¬ (minInstalls ≤ 0 ∧
         (maxInstalls = none ∨ ∃ m, maxInstalls = some m ∧ 0 ≤ m))) ∧
    (acceptsRecord parseYear nowYear minInstalls maxInstalls p = true ↔
      (minInstalls ≤ 0 ∧
       (maxInstalls = none ∨ ∃ m, maxInstalls = some m ∧ 0 ≤ m) ∧
       ∃ y, parseYear (p.last_updated.getD "") = some y ∧ nowYear - 2 ≤ y)) := by
  have hzero : p.active_installs.getD 0 = 0 := by
    rw [hnone]
    rfl
  constructor
  · constructor
    · intro hout hpass
      rcases hpass with ⟨hmin, hmax⟩
      have hov : overMax maxInstalls 0 = false := (overMax_eq_false _ _).mpr hmax
      rw [downloadAndExtractPlugin_def, hzero, if_neg (by omega),
        if_neg (by simp [hov])] at hout
      rcases henv : env.net with - | onet
      · rw [henv] at hout
        exact Outcome.noConfusion hout
      · rcases onet with - | es
        · rw [henv] at hout
          exact Outcome.noConfusion hout
        · rw [henv] at hout
          have hout' : (match extractRun env.osFail es emptyTree with
              | (st, true) => (⟨Outcome.osError, st⟩ : PluginResult)
              | (st, false) => ⟨Outcome.extracted, st⟩).outcome =
              Outcome.skippedBounds := hout
          rcases hrun : extractRun env.osFail es emptyTree with ⟨t, b⟩
          rw [hrun] at hout'
          cases b
          · exact Outcome.noConfusion hout'
          · exact Outcome.noConfusion hout'
    · intro hviol
      rw [downloadAndExtractPlugin_def, hzero]
      by_cases hmin : (0 : Int) < minInstalls
      · rw [if_pos hmin]
      · have hneg : ∃ m, maxInstalls = some m ∧ m < 0 := by
          by_contra hc
          push_neg at hc
          apply hviol
          refine ⟨by omega, ?_⟩
          cases hM : maxInstalls with
          | none => exact Or.inl rfl
          | some m => exact Or.inr ⟨m, rfl, by have := hc m hM; omega⟩
        rcases hneg with ⟨m, hM, hm0⟩
        rw [if_neg hmin, if_pos (by simp only [overMax, hM]; exact decide_eq_true hm0)]
  · have h := (filter_accepts_iff parseYear nowYear minInstalls maxInstalls p).1
    rw [hzero] at h
    exact h

/-- C10 witness: with `min_installs = 1` (and no max) a record lacking
`active_installs` is skipped by the orchestrator's re-validation. -/
theorem missing_installs_as_zero_witness :
    (downloadAndExtractPlugin ⟨some (some []), fun _ => false⟩ emptyTree
      recNoInstalls 1 none).outcome = Outcome.skippedBounds :=
  ((missing_installs_as_zero pyW 2025 1 none recNoInstalls
      ⟨some (some []), fun _ => false⟩ emptyTree rfl).1).mpr
    (by rintro ⟨h, -⟩; omega)

/-- A JSON value: the data `json.load` / `json.dump` move between the
cache file and memory.  The cached plugin records are the raw JSON
objects from the registry response, so "well-formed (JSON-representable)
record" means a `Json` value.  The UTF-8 text encoding performed by the
`json` standard library is lossless on such values and is modelled as
the identity on JSON trees: a file holds the `Json` value written to
it. -/
inductive Json where
  | null
  | bool (b : Bool)
  | num (n : Int)
  | str (s : String)
  | arr (elems : List Json)
  | obj (members : List (String × Json))

/-- The cache write (source lines 141-144): `open(cache_path, "w")`
truncates whatever was at the path and `json.dump(valid_plugins, f)`
writes the whole record sequence as one JSON array. -/
def saveCache (path : String) (records : List Json)
    (fs : String → Option Json) : String → Option Json :=
  fun q => if q = path then some (Json.arr records) else fs q

/-- The cache read (source lines 92-96): `json.load(f)` on the cache
file; the result is the array's element sequence, `none` when the file
is missing or does not hold a JSON array. -/
def loadCache (path : String) (fs : String → Option Json) :
    Option (List Json) :=
  match fs path with
  | some (Json.arr elems) => some elems
  | _ => none

/-- C4: saving the record sequence and loading it back yields an equal
sequence, and the save replaces whatever the cache file held before,
wholesale, with exactly the serialized sequence. -/
theorem cache_roundtrip_overwrite (path : String) (records : List Json)
    (fs : String → Option Json) :
    loadCache path (saveCache path records fs) = some records ∧
    saveCache path records fs path = some (Json.arr records) := by
  constructor
  · unfold loadCache saveCache
    simp
  · unfold saveCache
    simp
